import Mathlib

/-!
Verification development for the vbwd-sdk payment/webhook core.

Shallow embedding of:
* `src/python/api/src/events/core/dispatcher.py` (`EnhancedEventDispatcher`)
* `src/python/api/src/events/core/base.py` (`Event`)
* `src/python/api/src/events/domain.py` (`EventResult`)
* `src/python/api/src/sdk/base.py` (`BaseSDKAdapter._with_retry`, `_with_idempotency`)
* `src/python/api/src/sdk/idempotency_service.py` (`IdempotencyService`)
* `src/python/api/src/sdk/interface.py` (`SDKResponse`)
* `src/python/api/src/webhooks/service.py` (`WebhookService.process`)
* `src/python/api/src/webhooks/dto.py` (`WebhookResult`)

External collaborators (Python stdlib / Redis) are modelled as explicit
state or parameters: Redis becomes an association list, `time.sleep`
becomes a recorded list of delay durations, `json.loads` becomes a
function parameter, and `hashlib.sha256(...).hexdigest()[:32]` becomes an
abstract hash-function parameter.  Handler objects become behaviour
records whose method calls either return a value or raise
(`CallResult.exn`), mirroring Python exceptions.
-/

/-- Model of a Python value (`Any`), as far as the core needs it:
`None`, booleans, integers, strings, lists and string-keyed dicts. -/
inductive PyVal where
  | pnone
  | pbool (b : Bool)
  | pint (n : Int)
  | pstr (s : String)
  | plist (xs : List PyVal)
  | pdict (kvs : List (String × PyVal))


/-- Result of calling a Python method: either a normal return value or a
raised exception carrying `str(e)`. -/
inductive CallResult (α : Type) where
  | ok (a : α)
  | exn (msg : String)


/-- Association-list lookup, modelling Python `dict.get(k)` /
`k in d` followed by `d[k]`. -/
def getA {α : Type} (k : String) : List (String × α) → Option α
  | [] => Option.none
  | (k', v) :: rest => if k' = k then some v else getA k rest

/-- Association-list update, modelling Python `d[k] = v`. -/
def setA {α : Type} (k : String) (v : α) : List (String × α) → List (String × α)
  | [] => [(k, v)]
  | (k', v') :: rest => if k' = k then (k, v) :: rest else (k', v') :: setA k v rest

/-! ## `src/events/core/base.py` — `Event` -/

/-- Model of `Event` dataclass: `name`, `data`, and the mutable
`_propagation_stopped` flag (set by `stop_propagation()`, read by
`is_propagation_stopped()`). -/
structure Event where
  name : String
  data : List (String × PyVal) := []
  propagation_stopped : Bool := false


/-! ## `src/events/domain.py` — `EventResult` -/

/-- Model of `EventResult` dataclass: success flag plus optional data, error
message and error type.  `Option.none` models Python `None`. -/
structure EventResult where
  success : Bool
  data : Option PyVal := Option.none
  error : Option String := Option.none
  error_type : Option String := Option.none


/-- Model of `EventResult.success_result(data)`. -/
def EventResult.success_result (data : Option PyVal) : EventResult :=
  ⟨true, data, Option.none, Option.none⟩

/-- Model of `EventResult.error_result(error, error_type)`.  The Python default
for `error_type` is `'handler_error'`; call sites pass it explicitly. -/
def EventResult.error_result (error : String) (error_type : String) : EventResult :=
  ⟨false, Option.none, some error, some error_type⟩

/-- Model of `EventResult.no_handler()`. -/
def EventResult.no_handler : EventResult :=
  ⟨false, Option.none, some "No handler registered for event", some "no_handler"⟩

/-- Python truthiness of an `Optional[str]`: `None` and `""` are falsy.
Used by `combine` for `if r.error` and `if failed[0].error_type`. -/
def pyTruthyStr : Option String → Bool
  | Option.none => false
  | some s => !s.isEmpty

/-- The error message a failed result contributes to the joined error of
`EventResult.combine` (`[r.error for r in failed if r.error]`):
`None` and `""` contribute nothing (Python truthiness). -/
def EventResult.errMsg (r : EventResult) : Option String :=
  match r.error with
  | some s => if s.isEmpty then Option.none else some s
  | Option.none => Option.none

/-- The `error_type` `EventResult.combine` takes from the first failed
result: `failed[0].error_type if failed[0].error_type else 'handler_error'`
(Python truthiness: `None` and `""` fall back to the default). -/
def EventResult.firstFailedErrorType (r : EventResult) : String :=
  match r.error_type with
  | some t => if t.isEmpty then "handler_error" else t
  | Option.none => "handler_error"

/-- Model of `EventResult.combine(results)`: empty list gives a bare success;
otherwise failure when any element failed (joined messages, first failed
element's error type), success with the list of non-`None` data values
when all succeeded. -/
def EventResult.combine (results : List EventResult) : EventResult :=
  if results.isEmpty then
    EventResult.success_result Option.none
  else
    -- `failed = [r for r in results if not r.success]`, matched on below
    match results.filter (fun r => r.success = false) with
    | f :: fs =>
      EventResult.error_result
        (String.intercalate "; " ((f :: fs).filterMap EventResult.errMsg))
        (EventResult.firstFailedErrorType f)
    | [] =>
      EventResult.success_result (some (PyVal.plist (results.filterMap (fun r => r.data))))

/-! ## `src/events/core/dispatcher.py` — `EnhancedEventDispatcher`

A registered handler object is modelled by the behaviour it will show
during one `dispatch` call: its priority and handled event class (the
`get_priority()` / `get_handled_event_class()` values), the outcome of
calling `can_handle(event)` and `handle(event)` (normal return or raised
exception), and whether each of those calls invokes
`event.stop_propagation()` while it runs. -/

structure HandlerBeh where
  priority : Int
  eventClass : String
  canHandleRes : CallResult Bool
  canHandleStops : Bool := false
  handleRes : CallResult EventResult
  handleStops : Bool := false


/-- Stable insertion of one `(priority, handler)` entry into a list that
is sorted by descending priority: the new entry goes after every entry of
greater-or-equal priority. -/
def insertDesc (x : Int × HandlerBeh) : List (Int × HandlerBeh) → List (Int × HandlerBeh)
  | [] => [x]
  | y :: ys => if y.1 ≤ x.1 then x :: y :: ys else y :: insertDesc x ys

/-- The sort performed by `register`:
`self._handlers[event_class].sort(key=lambda x: x[0], reverse=True)` —
a stable sort by descending priority (Python's `list.sort` is stable and
`reverse=True` preserves the order of equal keys).  Any stable sort
computes the same list; this insertion sort is stable. -/
def sortDesc (l : List (Int × HandlerBeh)) : List (Int × HandlerBeh) :=
  l.foldr insertDesc []

/-- Dispatcher state: `self._handlers : Dict[str, List[Tuple[int, handler]]]`. -/
structure EnhancedEventDispatcher where
  handlers : List (String × List (Int × HandlerBeh)) := []


/-- The handler list stored for one event name (empty when the key is
absent); `register` reads it via the `not in` / `[]` initialisation. -/
def EnhancedEventDispatcher.handlersFor (d : EnhancedEventDispatcher) (n : String) :
    List (Int × HandlerBeh) :=
  (getA n d.handlers).getD []

/-- Model of `register(handler)`: append `(priority, handler)` to the list for the
handler's event class, then re-sort it stably by descending priority. -/
def EnhancedEventDispatcher.register (d : EnhancedEventDispatcher) (h : HandlerBeh) :
    EnhancedEventDispatcher :=
  ⟨setA h.eventClass (sortDesc (d.handlersFor h.eventClass ++ [(h.priority, h)])) d.handlers⟩

/-- A dispatcher built by registering a list of handlers, in order, on a
fresh dispatcher. -/
def registerAll (L : List HandlerBeh) : EnhancedEventDispatcher :=
  L.foldl EnhancedEventDispatcher.register ⟨[]⟩

/-- The `(priority, handler)` entries a registration sequence `L`
contributes to event name `n`, in registration order. -/
def entriesFor (n : String) (L : List HandlerBeh) : List (Int × HandlerBeh) :=
  (L.filter (fun h => h.eventClass = n)).map (fun h => (h.priority, h))

/-- What happened to one handler reached by the dispatch loop.  Every
reached handler had its `can_handle` invoked; `ran` / `ranExn` also
invoked `handle`. -/
inductive Step where
  | canExn (msg : String)
  | skip
  | ran (r : EventResult)
  | ranExn (msg : String)


/-- The `for priority, handler in self._handlers[event.name]` loop of
`dispatch`, instrumented with the trace of reached handlers.  `stopped`
is the event's propagation flag; the loop `break`s when it is set before
a handler, and each handler call may set it (flag updates are
or-monotone, mirroring `stop_propagation`). -/
def runLoop : List HandlerBeh → Bool → List (HandlerBeh × Step)
  | [], _ => []
  | h :: rest, stopped =>
    if stopped then []
    else
      match h.canHandleRes with
      | CallResult.exn m => (h, Step.canExn m) :: runLoop rest h.canHandleStops
      | CallResult.ok false => (h, Step.skip) :: runLoop rest h.canHandleStops
      | CallResult.ok true =>
        match h.handleRes with
        | CallResult.ok r => (h, Step.ran r) :: runLoop rest (h.canHandleStops || h.handleStops)
        | CallResult.exn m => (h, Step.ranExn m) :: runLoop rest (h.canHandleStops || h.handleStops)

/-- The `results` list collected by the loop: `skip` (can_handle returned
`False`) appends nothing; a normal `handle` appends its result; a raised
exception in `can_handle` or `handle` appends
`EventResult.error_result(str(e), 'handler_exception')`. -/
def stepResults (steps : List (HandlerBeh × Step)) : List EventResult :=
  steps.filterMap (fun s =>
    match s.2 with
    | Step.skip => Option.none
    | Step.ran r => some r
    | Step.ranExn m => some (EventResult.error_result m "handler_exception")
    | Step.canExn m => some (EventResult.error_result m "handler_exception"))

/-- Whether a reached handler leaves the propagation flag set (starting
from an unset flag): `can_handle` stopping, or — when `can_handle`
returned `True` so that `handle` ran — `handle` stopping. -/
def effStops (h : HandlerBeh) : Bool :=
  h.canHandleStops ||
    (match h.canHandleRes with
     | CallResult.ok true => h.handleStops
     | _ => false)

/-- Model of `dispatch(event)`: no key for `event.name` gives `no_handler`;
otherwise run the loop, and return `no_handler` when no results were
collected, else `combine` them. -/
def EnhancedEventDispatcher.dispatch (d : EnhancedEventDispatcher) (ev : Event) : EventResult :=
  match getA ev.name d.handlers with
  | Option.none => EventResult.no_handler
  | some hs =>
    let results := stepResults (runLoop (hs.map Prod.snd) ev.propagation_stopped)
    if results.isEmpty then EventResult.no_handler
    else EventResult.combine results

/-! ## `src/sdk/interface.py` — `SDKResponse` -/

/-- Model of `SDKResponse` dataclass: success flag, data dict (default empty),
optional error message and provider error code. -/
structure SDKResponse where
  success : Bool
  data : List (String × PyVal) := []
  error : Option String := Option.none
  error_code : Option String := Option.none

/-- The dict produced by `SDKResponse.to_dict()` (`dataclasses.asdict`):
all four fields under their field names.  The JSON round-trip performed
by the idempotency store (`json.dumps` / `json.loads`) is the identity on
this shape. -/
structure RespDict where
  success : Bool
  data : List (String × PyVal)
  error : Option String
  error_code : Option String

/-- Model of `SDKResponse.to_dict()`. -/
def SDKResponse.to_dict (r : SDKResponse) : RespDict :=
  ⟨r.success, r.data, r.error, r.error_code⟩

/-- The `SDKResponse` reconstructed from a cached payload in
`_with_idempotency`: `cached.get('success', False)`,
`cached.get('data', {})`, `cached.get('error')`,
`cached.get('error_code')`.  Every stored payload carries all four keys,
so each `get` finds its key. -/
def respFromDict (d : RespDict) : SDKResponse :=
  ⟨d.success, d.data, d.error, d.error_code⟩

/-! ## `src/sdk/idempotency_service.py` — `IdempotencyService`

The Redis collaborator becomes an association list from full key strings
to stored payloads; TTL expiry is not modelled (no claim depends on it). -/

/-- The Redis contents backing one `IdempotencyService`. -/
abbrev Cache : Type := List (String × RespDict)

/-- Model of `IdempotencyService.check(key)`: `redis.get(f"idempotency:{key}")`,
JSON-decoded.  A stored value is a non-empty string (and the decoded
payload a non-empty dict), so the Python truthiness tests on it pass
exactly when the key is present. -/
def svcCheck (c : Cache) (key : String) : Option RespDict :=
  getA ("idempotency:" ++ key) c

/-- Model of `IdempotencyService.store(key, response)`:
`redis.setex(f"idempotency:{key}", ttl, json.dumps(response))`. -/
def svcStore (c : Cache) (key : String) (response : RespDict) : Cache :=
  setA ("idempotency:" ++ key) response c

/-- The string hashed by `IdempotencyService.generate_key`:
`f"{provider}:{operation}:{':'.join(str(a) for a in args)}"`, with the
arguments already rendered by `str`. -/
def joinArgs : List String → String
  | [] => ""
  | [a] => a
  | a :: rest => a ++ ":" ++ joinArgs rest

/-- The data string `generate_key` feeds to the hash. -/
def keyData (provider operation : String) (args : List String) : String :=
  provider ++ ":" ++ operation ++ ":" ++ joinArgs args

/-- Model of `IdempotencyService.generate_key(provider, operation, *args)`.
`hashlib.sha256(data.encode()).hexdigest()[:32]` is an external stdlib
function; it is modelled as an explicit hash-function parameter `h`
applied to the data string (the spec assumes it collision-resistant). -/
def generate_key (h : String → String) (provider operation : String)
    (args : List String) : String :=
  h (keyData provider operation args)

/-! ## `src/sdk/base.py` — `BaseSDKAdapter` -/

/-- One invocation of the `operation` passed to `_with_retry`: a normal
`SDKResponse` return, a raised `TransientError` (with `str(e)`), or any
other raised exception, which `except TransientError` does not catch. -/
inductive Outcome where
  | ok (r : SDKResponse)
  | transient (e : String)
  | fatal (e : String)

/-- An exception escaping `_with_retry`. -/
inductive RetryErr where
  /-- The last `TransientError`, re-raised after all attempts failed. -/
  | transientExhausted (e : String)
  /-- A non-transient exception, propagating uncaught from `operation()`. -/
  | nonTransient (e : String)
  /-- Model of `raise last_error` with `last_error is None` (unreachable for a
  non-negative retry budget). -/
  | raiseNone

/-- Observed behaviour of one `_with_retry` call: its outcome, how many
times `operation()` was invoked, and the `time.sleep` durations (in
seconds, as exact rationals) in order. -/
structure RetryOut where
  result : Except RetryErr SDKResponse
  calls : Nat
  delays : List ℚ

/-- The sleep before retrying after the `attempt`-th transient failure:
`time.sleep(0.1 * (2 ** attempt))`, in seconds as an exact rational. -/
def backoffDelay (attempt : Nat) : ℚ :=
  (1 / 10 : ℚ) * 2 ^ attempt

/-- The `for attempt in range(retries + 1)` loop of `_with_retry`.
`fuel` is the number of loop iterations left, `attempt` the current
index, `lastErr` the `last_error` variable; `op n` is what the `n`-th
invocation of `operation()` does.  On a `TransientError`, when
`attempt < retries` the loop sleeps `0.1 * (2 ** attempt)` seconds and
continues; when the loop ends, the last error is re-raised. -/
def withRetryGo (op : Nat → Outcome) (retries : Nat) :
    Nat → Nat → Option String → RetryOut
  | 0, _, lastErr =>
    ⟨Except.error (match lastErr with
      | some e => RetryErr.transientExhausted e
      | Option.none => RetryErr.raiseNone), 0, []⟩
  | Nat.succ fuel, attempt, _ =>
    match op attempt with
    | Outcome.ok r => ⟨Except.ok r, 1, []⟩
    | Outcome.fatal e => ⟨Except.error (RetryErr.nonTransient e), 1, []⟩
    | Outcome.transient e =>
      let rest := withRetryGo op retries fuel (attempt + 1) (some e)
      ⟨rest.result, rest.calls + 1,
        (if attempt < retries then [backoffDelay attempt] else []) ++ rest.delays⟩

/-- Model of `BaseSDKAdapter._with_retry(operation, max_retries)` with a resolved
retry budget `retries` (the `max_retries` argument when given, else
`config.max_retries`). -/
def withRetry (op : Nat → Outcome) (retries : Nat) : RetryOut :=
  withRetryGo op retries (retries + 1) 0 Option.none

/-- Observed behaviour of one `_with_idempotency` call: the returned
response, the cache afterwards, and how many times `operation()` ran. -/
structure IdemOut where
  response : SDKResponse
  cache : Cache
  calls : Nat

/-- Python truthiness of the `idempotency_key` argument
(`Optional[str]`): `None` and `""` are falsy, so
`if not idempotency_key` skips idempotency for both. -/
def pyTruthyKey : Option String → Bool
  | Option.none => false
  | some s => !s.isEmpty

/-- Model of `BaseSDKAdapter._with_idempotency(idempotency_key, operation)`.
`hasService` is whether `self._idempotency` is configured, `c` the cache
contents, and `op` the response `operation()` would produce.  With a
truthy key and a service: a cache hit returns the reconstructed cached
response without running `operation`; a miss runs it once and stores
`response.to_dict()` only when `response.success`. -/
def withIdempotency (hasService : Bool) (c : Cache) (key : Option String)
    (op : SDKResponse) : IdemOut :=
  if !pyTruthyKey key || !hasService then ⟨op, c, 1⟩
  else
    let k := key.getD ""
    match svcCheck c k with
    | some cached => ⟨respFromDict cached, c, 0⟩
    | Option.none =>
      if op.success then ⟨op, svcStore c k op.to_dict, 1⟩
      else ⟨op, c, 1⟩

/-! ## `src/webhooks/service.py` — `WebhookService`

`json.loads` is a stdlib collaborator and becomes a function parameter
`jsonLoads`.  One call to `json.loads(payload)` on raw bytes has three
possible outcomes, and `process` distinguishes them: a parsed value; a
raised `json.JSONDecodeError`, which the `except json.JSONDecodeError`
in `process` catches and converts to a failure result; or any other
raised exception — notably `UnicodeDecodeError` when the payload bytes
are not valid UTF-8, raised by the `bytes.decode` step inside
`json.loads` — which that `except` clause does not catch and which
therefore propagates out of `process`.  A registered `IWebhookHandler`
becomes a behaviour record; `verify_signature` returns a `bool` per its
interface contract, while `parse_event` and `handle` — the two calls
`process` guards with blanket `except Exception` — may raise. -/

/-- Model of `WebhookResult` dataclass from `src/webhooks/dto.py`. -/
structure WebhookResult where
  success : Bool
  message : Option String := Option.none
  error : Option String := Option.none
  data : List (String × PyVal) := []

/-- Behaviour of a registered `IWebhookHandler`, with the normalized
event type `Ev` abstract. -/
structure IWebhookHandlerBeh (Ev : Type) where
  provider : String
  verify_signature : List Nat → String → String → Bool
  parse_event : PyVal → CallResult Ev
  handle : Ev → CallResult WebhookResult

/-- Model of `WebhookService` state: `self._handlers` and `self._secrets`. -/
structure WebhookService (Ev : Type) where
  handlers : List (String × IWebhookHandlerBeh Ev) := []
  secrets : List (String × String) := []

/-- A call `process` makes to a collaborator after the signature gate:
JSON parsing of the body, the handler's `parse_event`, or its `handle`.
`processT` records every such invocation, in order. -/
inductive WCall where
  | jsonParse
  | parseEventCall
  | handleCall

/-- Outcome of one `json.loads(payload)` call on raw payload bytes:
a parsed value, a raised `json.JSONDecodeError`, or any other raised
exception (e.g. `UnicodeDecodeError` on non-UTF-8 bytes), carrying
`str(e)` in the error cases. -/
inductive JsonOutcome where
  | ok (v : PyVal)
  | decodeErr (e : String)
  | otherExn (e : String)

/-- Model of `WebhookService.process(provider, payload, signature, headers)`,
instrumented with the trace of collaborator calls made after handler
lookup and signature verification.  `CallResult.ok` is a normal return
of a `WebhookResult`; `CallResult.exn` is an exception propagating out
of `process` to its caller.  Mirrors the source step by step: unknown
provider → failure result; `verify_signature` false (against the secret
`self._secrets.get(provider, '')`) → `"Invalid signature"` failure
before any parsing; `json.loads` raising `JSONDecodeError` → failure
result, but `json.loads` raising anything else (e.g.
`UnicodeDecodeError` on non-UTF-8 payload bytes) is not caught by the
`except json.JSONDecodeError` clause and propagates; `parse_event`
exception → failure result; `handle` exception → failure result;
otherwise the handler's own `WebhookResult`. -/
def processT {Ev : Type} (svc : WebhookService Ev)
    (jsonLoads : List Nat → JsonOutcome)
    (provider : String) (payload : List Nat) (signature : String)
    (headers : List (String × String)) : CallResult WebhookResult × List WCall :=
  match getA provider svc.handlers with
  | Option.none =>
    (CallResult.ok ⟨false, Option.none, some ("Unknown provider: " ++ provider), []⟩, [])
  | some handler =>
    let secret := (getA provider svc.secrets).getD ""
    if handler.verify_signature payload signature secret = false then
      (CallResult.ok ⟨false, Option.none, some "Invalid signature", []⟩, [])
    else
      match jsonLoads payload with
      | JsonOutcome.otherExn e =>
        -- uncaught: only `json.JSONDecodeError` is excepted at this site
        (CallResult.exn e, [WCall.jsonParse])
      | JsonOutcome.decodeErr e =>
        (CallResult.ok ⟨false, Option.none, some ("Failed to parse JSON: " ++ e), []⟩,
          [WCall.jsonParse])
      | JsonOutcome.ok jsonData =>
        match handler.parse_event jsonData with
        | CallResult.exn e =>
          (CallResult.ok ⟨false, Option.none, some ("Failed to parse event: " ++ e), []⟩,
            [WCall.jsonParse, WCall.parseEventCall])
        | CallResult.ok event =>
          match handler.handle event with
          | CallResult.exn e =>
            (CallResult.ok ⟨false, Option.none, some ("Handler error: " ++ e), []⟩,
              [WCall.jsonParse, WCall.parseEventCall, WCall.handleCall])
          | CallResult.ok result =>
            (CallResult.ok result, [WCall.jsonParse, WCall.parseEventCall, WCall.handleCall])

/-- Model of `WebhookService.process` proper: a normal return of the
`WebhookResult`, or an uncaught exception escaping to the caller. -/
def WebhookService.process {Ev : Type} (svc : WebhookService Ev)
    (jsonLoads : List Nat → JsonOutcome)
    (provider : String) (payload : List Nat) (signature : String)
    (headers : List (String × String)) : CallResult WebhookResult :=
  (processT svc jsonLoads provider payload signature headers).1

/-! ## Association-list lemmas -/

theorem getA_setA_same {α : Type} (k : String) (v : α) :
    ∀ m : List (String × α), getA k (setA k v m) = some v
  | [] => by simp [setA, getA]
  | (k', v') :: rest => by
    by_cases h : k' = k
    · simp [setA, getA, h]
    · simp [setA, getA, h, getA_setA_same k v rest]

theorem getA_setA_other {α : Type} {k k' : String} (h : k' ≠ k) (v : α) :
    ∀ m : List (String × α), getA k (setA k' v m) = getA k m
  | [] => by simp [setA, getA, h]
  | (k'', v'') :: rest => by
    by_cases h2 : k'' = k'
    · subst h2
      simp [setA, getA, h]
    · simp only [setA, if_neg h2, getA]
      by_cases h3 : k'' = k
      · simp [h3]
      · simp [h3, getA_setA_other h v rest]

/-! ## Stable-sort lemmas for `register` -/

theorem mem_insertDesc {x y : Int × HandlerBeh} :
    ∀ l, y ∈ insertDesc x l ↔ y = x ∨ y ∈ l
  | [] => by simp [insertDesc]
  | z :: zs => by
    by_cases h : z.1 ≤ x.1
    · simp only [insertDesc, if_pos h, List.mem_cons]
    · simp only [insertDesc, if_neg h, List.mem_cons, mem_insertDesc zs]
      tauto

theorem pairwise_insertDesc {x : Int × HandlerBeh} :
    ∀ {l : List (Int × HandlerBeh)}, l.Pairwise (fun a b => b.1 ≤ a.1) →
      (insertDesc x l).Pairwise (fun a b => b.1 ≤ a.1)
  | [], _ => by simp [insertDesc]
  | z :: zs, hp => by
    rcases List.pairwise_cons.mp hp with ⟨hz, hzs⟩
    by_cases h : z.1 ≤ x.1
    · rw [insertDesc, if_pos h]
      refine List.pairwise_cons.mpr ⟨?_, hp⟩
      intro b hb
      rcases List.mem_cons.mp hb with rfl | hb'
      · exact h
      · exact le_trans (hz b hb') h
    · rw [insertDesc, if_neg h]
      refine List.pairwise_cons.mpr ⟨?_, pairwise_insertDesc hzs⟩
      intro b hb
      rcases (mem_insertDesc zs).mp hb with rfl | hb'
      · exact le_of_lt (lt_of_not_le h)
      · exact hz b hb'

theorem filter_insertDesc (p : Int) (x : Int × HandlerBeh) :
    ∀ l, (insertDesc x l).filter (fun y => decide (y.1 = p)) =
      if x.1 = p then x :: l.filter (fun y => decide (y.1 = p))
      else l.filter (fun y => decide (y.1 = p))
  | [] => by by_cases h : x.1 = p <;> simp [insertDesc, h]
  | z :: zs => by
    by_cases hz : z.1 ≤ x.1
    · rw [insertDesc, if_pos hz]
      by_cases h : x.1 = p <;> simp [List.filter_cons, h]
    · rw [insertDesc, if_neg hz]
      by_cases h : x.1 = p
      · have hzp : ¬ z.1 = p := by
          intro hzp
          exact hz (le_of_eq (hzp.trans h.symm))
        simp [List.filter_cons, hzp, filter_insertDesc p x zs, h]
      · by_cases hzp : z.1 = p <;>
          simp [List.filter_cons, hzp, filter_insertDesc p x zs, h]

theorem sortDesc_cons (x : Int × HandlerBeh) (l : List (Int × HandlerBeh)) :
    sortDesc (x :: l) = insertDesc x (sortDesc l) := rfl

theorem sortDesc_pairwise :
    ∀ l : List (Int × HandlerBeh), (sortDesc l).Pairwise (fun a b => b.1 ≤ a.1)
  | [] => by simp [sortDesc]
  | x :: l => by
    rw [sortDesc_cons]
    exact pairwise_insertDesc (sortDesc_pairwise l)

theorem sortDesc_filter (p : Int) :
    ∀ l : List (Int × HandlerBeh),
      (sortDesc l).filter (fun y => decide (y.1 = p)) = l.filter (fun y => decide (y.1 = p))
  | [] => rfl
  | x :: l => by
    rw [sortDesc_cons, filter_insertDesc]
    by_cases h : x.1 = p <;> simp [List.filter_cons, h, sortDesc_filter p l]

theorem sorted_eq_of_filter_eq :
    ∀ (l₁ l₂ : List (Int × HandlerBeh)),
      l₁.Pairwise (fun a b => b.1 ≤ a.1) → l₂.Pairwise (fun a b => b.1 ≤ a.1) →
      (∀ p : Int, l₁.filter (fun y => decide (y.1 = p)) =
        l₂.filter (fun y => decide (y.1 = p))) →
      l₁ = l₂
  | [], [], _, _, _ => rfl
  | [], b :: l₂, _, _, hf => by
    have h := hf b.1
    simp [List.filter_cons] at h
  | a :: l₁, [], _, _, hf => by
    have h := hf a.1
    simp [List.filter_cons] at h
  | a :: l₁, b :: l₂, h₁, h₂, hf => by
    rcases List.pairwise_cons.mp h₁ with ⟨ha, ht₁⟩
    rcases List.pairwise_cons.mp h₂ with ⟨hb, ht₂⟩
    have hab : a = b := by
      by_cases hba : b.1 = a.1
      · have h := hf a.1
        simp only [List.filter_cons, decide_eq_true_eq, hba, if_pos rfl,
          eq_self_iff_true, if_true, List.cons.injEq] at h
        exact h.1
      · -- `b.1 ≠ a.1`: derive `a ∈ l₂` and `b ∈ l₁`, contradicting sortedness
        have h := hf a.1
        simp only [List.filter_cons, decide_eq_true_eq, if_pos rfl, if_neg hba] at h
        have hmem : a ∈ l₂.filter (fun y => decide (y.1 = a.1)) := by
          rw [← h]; exact List.mem_cons_self _ _
        have haleb : a.1 ≤ b.1 := hb a (List.mem_of_mem_filter hmem)
        have hlt : a.1 < b.1 := lt_of_le_of_ne haleb (fun he => hba he.symm)
        have h' := hf b.1
        have hna : ¬ a.1 = b.1 := ne_of_lt hlt
        simp only [List.filter_cons, decide_eq_true_eq, if_pos rfl, if_neg hna] at h'
        have hmem' : b ∈ l₁.filter (fun y => decide (y.1 = b.1)) := by
          rw [h']; exact List.mem_cons_self _ _
        have hble : b.1 ≤ a.1 := ha b (List.mem_of_mem_filter hmem')
        exact absurd hble (not_le_of_lt hlt)
    subst hab
    have htails : ∀ p : Int, l₁.filter (fun y => decide (y.1 = p)) =
        l₂.filter (fun y => decide (y.1 = p)) := by
      intro p
      have h := hf p
      by_cases hp : a.1 = p
      · simp only [List.filter_cons, decide_eq_true_eq, hp, if_pos rfl] at h
        exact List.cons.inj h |>.2
      · simpa only [List.filter_cons, decide_eq_true_eq, hp, if_neg hp] using h
    exact congrArg (a :: ·) (sorted_eq_of_filter_eq l₁ l₂ ht₁ ht₂ htails)

theorem sortDesc_sortDesc_append (A B : List (Int × HandlerBeh)) :
    sortDesc (sortDesc A ++ B) = sortDesc (A ++ B) := by
  refine sorted_eq_of_filter_eq _ _ (sortDesc_pairwise _) (sortDesc_pairwise _) ?_
  intro p
  rw [sortDesc_filter, sortDesc_filter, List.filter_append, List.filter_append,
    sortDesc_filter]

theorem sortDesc_idem (A : List (Int × HandlerBeh)) :
    sortDesc (sortDesc A) = sortDesc A := by
  have h := sortDesc_sortDesc_append A []
  simpa using h

theorem handlersFor_register (d : EnhancedEventDispatcher) (h : HandlerBeh) (n : String) :
    (d.register h).handlersFor n =
      if h.eventClass = n then sortDesc (d.handlersFor h.eventClass ++ [(h.priority, h)])
      else d.handlersFor n := by
  by_cases he : h.eventClass = n
  · subst he
    simp [EnhancedEventDispatcher.register, EnhancedEventDispatcher.handlersFor,
      getA_setA_same]
  · simp [EnhancedEventDispatcher.register, EnhancedEventDispatcher.handlersFor,
      getA_setA_other he, he]

theorem entriesFor_cons (n : String) (h : HandlerBeh) (L : List HandlerBeh) :
    entriesFor n (h :: L) =
      if h.eventClass = n then (h.priority, h) :: entriesFor n L else entriesFor n L := by
  by_cases he : h.eventClass = n <;> simp [entriesFor, he]

theorem foldl_register_handlersFor :
    ∀ (L : List HandlerBeh) (d : EnhancedEventDispatcher),
      (∀ m, sortDesc (d.handlersFor m) = d.handlersFor m) →
      ∀ n, (L.foldl EnhancedEventDispatcher.register d).handlersFor n =
        sortDesc (d.handlersFor n ++ entriesFor n L)
  | [], d, hd, n => by
    simp [entriesFor, hd n]
  | h :: L, d, hd, n => by
    rw [List.foldl_cons]
    have hd' : ∀ m, sortDesc ((d.register h).handlersFor m) = (d.register h).handlersFor m := by
      intro m
      rw [handlersFor_register]
      by_cases he : h.eventClass = m
      · simp [he, sortDesc_idem]
      · simp [he, hd m]
    rw [foldl_register_handlersFor L (d.register h) hd' n, handlersFor_register,
      entriesFor_cons]
    by_cases he : h.eventClass = n
    · subst he
      simp only [eq_self_iff_true, if_true]
      rw [sortDesc_sortDesc_append, List.append_assoc]
      rfl
    · simp [he]

/-- The stored handler list of a dispatcher built by registration is the
stable descending-priority sort of the registration entries. -/
theorem registerAll_handlersFor (L : List HandlerBeh) (n : String) :
    (registerAll L).handlersFor n = sortDesc (entriesFor n L) := by
  have h := foldl_register_handlersFor L ⟨[]⟩ (fun m => rfl) n
  simpa [EnhancedEventDispatcher.handlersFor, getA] using h

/-! ## Dispatch-loop lemmas -/

theorem runLoop_stopped (hs : List HandlerBeh) : runLoop hs true = [] := by
  cases hs <;> simp [runLoop]

/-- Each reached handler contributes exactly one trace entry, in list
order: the reached handlers are a prefix of the stored handler list. -/
theorem runLoop_map_fst (hs : List HandlerBeh) (s : Bool) :
    (runLoop hs s).map Prod.fst = hs.take ((runLoop hs s).length) := by
  induction hs generalizing s with
  | nil => simp [runLoop]
  | cons h rest ih =>
    by_cases hst : s
    · subst hst
      simp [runLoop_stopped]
    · have hsf : s = false := by simpa using hst
      subst hsf
      rw [runLoop]
      simp only [if_neg Bool.false_ne_true]
      cases hc : h.canHandleRes with
      | exn m => simp [List.take_succ_cons, ih]
      | ok b =>
        cases b
        · simp [List.take_succ_cons, ih]
        · cases hh : h.handleRes <;> simp [List.take_succ_cons, ih]

/-- The propagation flag left behind by a reached handler equals
`effStops`. -/
theorem runLoop_cons_false (h : HandlerBeh) (rest : List HandlerBeh) :
    runLoop (h :: rest) false =
      (h, match h.canHandleRes with
          | CallResult.exn m => Step.canExn m
          | CallResult.ok false => Step.skip
          | CallResult.ok true =>
            (match h.handleRes with
             | CallResult.ok r => Step.ran r
             | CallResult.exn m => Step.ranExn m)) :: runLoop rest (effStops h) := by
  rw [runLoop]
  simp only [if_neg Bool.false_ne_true]
  cases hc : h.canHandleRes with
  | exn m => simp [effStops, hc]
  | ok b =>
    cases b
    · simp [effStops, hc]
    · cases hh : h.handleRes <;> simp [effStops, hc, hh]

/-- Once a reached handler leaves the propagation flag set, it is the
last handler reached: no later handler gets a trace entry (so neither
its `can_handle` nor its `handle` is invoked). -/
theorem runLoop_stop_halts :
    ∀ (hs : List HandlerBeh) (s : Bool) (j : Nat) (p : HandlerBeh × Step),
      (runLoop hs s).get? j = some p → effStops p.1 = true →
      (runLoop hs s).length = j + 1
  | [], s, j, p, hget, _ => by simp [runLoop] at hget
  | h :: rest, s, j, p, hget, hstop => by
    by_cases hst : s
    · subst hst
      rw [runLoop_stopped] at hget
      simp at hget
    · have hsf : s = false := by simpa using hst
      subst hsf
      rw [runLoop_cons_false] at hget ⊢
      cases j with
      | zero =>
        simp only [List.get?] at hget
        have hp : p.1 = h := by
          have he := Option.some.inj hget
          rw [← he]
        rw [hp] at hstop
        simp [runLoop_stopped, hstop]
      | succ j' =>
        simp only [List.get?] at hget
        have := runLoop_stop_halts rest (effStops h) j' p hget hstop
        simp [this]

/-! ## Combine lemmas -/

theorem combine_failed (results : List EventResult) (f : EventResult)
    (fs : List EventResult)
    (hf : results.filter (fun r => r.success = false) = f :: fs) :
    EventResult.combine results =
      EventResult.error_result
        (String.intercalate "; " ((f :: fs).filterMap EventResult.errMsg))
        (EventResult.firstFailedErrorType f) := by
  cases results with
  | nil => simp at hf
  | cons r rs =>
    rw [EventResult.combine]
    rw [hf]
    rfl

theorem combine_all_success (results : List EventResult) (hne : results ≠ [])
    (hall : ∀ r ∈ results, r.success = true) :
    EventResult.combine results =
      EventResult.success_result
        (some (PyVal.plist (results.filterMap (fun r => r.data)))) := by
  have hfilter : results.filter (fun r => r.success = false) = [] := by
    rw [List.filter_eq_nil_iff]
    intro a ha
    simp [hall a ha]
  cases results with
  | nil => exact absurd rfl hne
  | cons r rs =>
    rw [EventResult.combine]
    rw [hfilter]
    rfl

theorem combine_success_iff (results : List EventResult) (hne : results ≠ []) :
    (EventResult.combine results).success = true ↔ ∀ r ∈ results, r.success = true := by
  constructor
  · intro h
    by_contra hno
    push_neg at hno
    obtain ⟨r, hr, hrs⟩ := hno
    have hrf : r.success = false := by
      cases hs : r.success
      · rfl
      · exact absurd hs hrs
    rcases hfe : results.filter (fun r => r.success = false) with _ | ⟨f, fs⟩
    · have : r ∈ results.filter (fun r => r.success = false) := by
        rw [List.mem_filter]
        exact ⟨hr, by simp [hrf]⟩
      rw [hfe] at this
      simp at this
    · rw [combine_failed results f fs hfe] at h
      simp [EventResult.error_result] at h
  · intro hall
    rw [combine_all_success results hne hall]
    rfl

theorem combine_exists_failed (results : List EventResult)
    (h : ∃ r ∈ results, r.success = false) :
    (EventResult.combine results).success = false ∧
      (EventResult.combine results).data = Option.none := by
  obtain ⟨r, hr, hrs⟩ := h
  rcases hfe : results.filter (fun r => r.success = false) with _ | ⟨f, fs⟩
  · exfalso
    have : r ∈ results.filter (fun r => r.success = false) := by
      rw [List.mem_filter]
      exact ⟨hr, by simp [hrs]⟩
    rw [hfe] at this
    simp at this
  · rw [combine_failed results f fs hfe]
    exact ⟨rfl, rfl⟩

/-! ## Retry-loop lemmas -/

theorem withRetryGo_calls_le (op : Nat → Outcome) (retries : Nat) :
    ∀ (fuel attempt : Nat) (le : Option String),
      (withRetryGo op retries fuel attempt le).calls ≤ fuel
  | 0, _, _ => by simp [withRetryGo]
  | Nat.succ fuel, attempt, le => by
    rw [withRetryGo]
    cases op attempt with
    | ok r => simp
    | fatal e => simp
    | transient e =>
      simp only []
      have := withRetryGo_calls_le op retries fuel (attempt + 1) (some e)
      omega

theorem withRetryGo_ok (op : Nat → Outcome) (retries : Nat) (r : SDKResponse) :
    ∀ (k fuel attempt : Nat) (le : Option String), k < fuel → attempt + k ≤ retries →
      (∀ i, i < k → ∃ e, op (attempt + i) = Outcome.transient e) →
      op (attempt + k) = Outcome.ok r →
      withRetryGo op retries fuel attempt le =
        ⟨Except.ok r, k + 1, (List.range' attempt k).map backoffDelay⟩
  | 0, fuel, attempt, le, hk, _, _, hok => by
    obtain ⟨fuel, rfl⟩ : ∃ f, fuel = f + 1 := ⟨fuel - 1, by omega⟩
    rw [Nat.add_zero] at hok
    rw [withRetryGo, hok]
    rfl
  | Nat.succ k, fuel, attempt, le, hk, hle, htr, hok => by
    obtain ⟨fuel, rfl⟩ : ∃ f, fuel = f + 1 := ⟨fuel - 1, by omega⟩
    obtain ⟨e, he⟩ := htr 0 (Nat.succ_pos k)
    rw [Nat.add_zero] at he
    have ih := withRetryGo_ok op retries r k fuel (attempt + 1) (some e)
      (by omega) (by omega)
      (fun i hi => by
        have := htr (i + 1) (by omega)
        rwa [show attempt + (i + 1) = attempt + 1 + i by omega] at this)
      (by rwa [show attempt + 1 + k = attempt + (k + 1) by omega])
    rw [withRetryGo, he]
    simp only [ih, if_pos (show attempt < retries by omega)]
    rw [List.range'_succ]
    rfl

theorem withRetryGo_fatal (op : Nat → Outcome) (retries : Nat) (e : String) :
    ∀ (k fuel attempt : Nat) (le : Option String), k < fuel → attempt + k ≤ retries →
      (∀ i, i < k → ∃ e', op (attempt + i) = Outcome.transient e') →
      op (attempt + k) = Outcome.fatal e →
      withRetryGo op retries fuel attempt le =
        ⟨Except.error (RetryErr.nonTransient e), k + 1,
          (List.range' attempt k).map backoffDelay⟩
  | 0, fuel, attempt, le, hk, _, _, hft => by
    obtain ⟨fuel, rfl⟩ : ∃ f, fuel = f + 1 := ⟨fuel - 1, by omega⟩
    rw [Nat.add_zero] at hft
    rw [withRetryGo, hft]
    rfl
  | Nat.succ k, fuel, attempt, le, hk, hle, htr, hft => by
    obtain ⟨fuel, rfl⟩ : ∃ f, fuel = f + 1 := ⟨fuel - 1, by omega⟩
    obtain ⟨e', he⟩ := htr 0 (Nat.succ_pos k)
    rw [Nat.add_zero] at he
    have ih := withRetryGo_fatal op retries e k fuel (attempt + 1) (some e')
      (by omega) (by omega)
      (fun i hi => by
        have := htr (i + 1) (by omega)
        rwa [show attempt + (i + 1) = attempt + 1 + i by omega] at this)
      (by rwa [show attempt + 1 + k = attempt + (k + 1) by omega])
    rw [withRetryGo, he]
    simp only [ih, if_pos (show attempt < retries by omega)]
    rw [List.range'_succ]
    rfl

theorem withRetryGo_exhaust (op : Nat → Outcome) (retries : Nat) (elast : String) :
    ∀ (f attempt : Nat) (le : Option String), attempt + f = retries →
      (∀ i, i ≤ f → ∃ e, op (attempt + i) = Outcome.transient e) →
      op retries = Outcome.transient elast →
      withRetryGo op retries (f + 1) attempt le =
        ⟨Except.error (RetryErr.transientExhausted elast), f + 1,
          (List.range' attempt f).map backoffDelay⟩
  | 0, attempt, le, haf, htr, hlast => by
    have ha : attempt = retries := by omega
    subst ha
    rw [withRetryGo, hlast]
    simp only [withRetryGo]
    simp [if_neg (lt_irrefl attempt)]
  | Nat.succ f, attempt, le, haf, htr, hlast => by
    obtain ⟨e, he⟩ := htr 0 (Nat.zero_le _)
    rw [Nat.add_zero] at he
    have ih := withRetryGo_exhaust op retries elast f (attempt + 1) (some e)
      (by omega)
      (fun i hi => by
        have := htr (i + 1) (by omega)
        rwa [show attempt + (i + 1) = attempt + 1 + i by omega] at this)
      hlast
    rw [withRetryGo, he]
    simp only [ih, if_pos (show attempt < retries by omega)]
    rw [List.range'_succ]
    rfl

/-! ## Key-generation lemmas -/

theorem strAppend_left_cancel {a b c : String} (h : a ++ b = a ++ c) : b = c := by
  have hd : a.data ++ b.data = a.data ++ c.data := by
    have := congrArg String.data h
    rwa [String.data_append, String.data_append] at this
  exact String.ext (List.append_cancel_left hd)

theorem strAppend_right_cancel {a b c : String} (h : a ++ c = b ++ c) : a = b := by
  have hd : a.data ++ c.data = b.data ++ c.data := by
    have := congrArg String.data h
    rwa [String.data_append, String.data_append] at this
  exact String.ext (List.append_cancel_right hd)

theorem joinArgs_cons (x : String) :
    ∀ v : List String, joinArgs (x :: v) =
      x ++ (if v.isEmpty then "" else ":" ++ joinArgs v)
  | [] => by simp [joinArgs]
  | y :: ys => by
    simp only [joinArgs, List.isEmpty_cons, Bool.false_eq_true, if_false]
    rw [String.append_assoc]

theorem joinArgs_append_cons (x : String) (v : List String) :
    ∀ u : List String, joinArgs (u ++ x :: v) =
      (if u.isEmpty then "" else joinArgs u ++ ":") ++ joinArgs (x :: v)
  | [] => by simp [String.append_assoc]
  | a :: u' => by
    rw [List.cons_append, joinArgs_cons a (u' ++ x :: v), joinArgs_append_cons x v u']
    by_cases hu : u'.isEmpty
    · have hu' : u' = [] := by
        cases u' with
        | nil => rfl
        | cons b bs => simp at hu
      subst hu'
      simp [joinArgs, String.append_assoc]
    · have hne : ¬ (u' ++ x :: v).isEmpty := by
        cases u' <;> simp at hu ⊢
      simp only [hne, if_neg, hu, List.isEmpty_cons, Bool.false_eq_true, if_false]
      rw [joinArgs_cons a u', if_neg (by simpa using hu)]
      simp [String.append_assoc]

/-- Changing exactly one positional argument changes the string
`':'.join(args)`, the other arguments and the argument count unchanged. -/
theorem joinArgs_one_change {x y : String} (u v : List String) (hxy : x ≠ y)
    (h : joinArgs (u ++ x :: v) = joinArgs (u ++ y :: v)) : False := by
  rw [joinArgs_append_cons x v u, joinArgs_append_cons y v u] at h
  have h2 : joinArgs (x :: v) = joinArgs (y :: v) := strAppend_left_cancel h
  rw [joinArgs_cons x v, joinArgs_cons y v] at h2
  by_cases hv : v.isEmpty
  · simp only [hv, if_true] at h2
    exact hxy (by simpa using h2)
  · simp only [hv, Bool.false_eq_true, if_false] at h2
    exact hxy (strAppend_right_cancel h2)

theorem keyData_inj_provider {p p' o : String} {a : List String}
    (h : keyData p o a = keyData p' o a) : p = p' := by
  unfold keyData at h
  exact strAppend_right_cancel (strAppend_right_cancel (strAppend_right_cancel
    (strAppend_right_cancel h)))

theorem keyData_inj_operation {p o o' : String} {a : List String}
    (h : keyData p o a = keyData p o' a) : o = o' := by
  unfold keyData at h
  have h1 := strAppend_right_cancel (strAppend_right_cancel h)
  exact strAppend_left_cancel h1

theorem keyData_inj_arg {p o x y : String} {u v : List String} (hxy : x ≠ y)
    (h : keyData p o (u ++ x :: v) = keyData p o (u ++ y :: v)) : False := by
  unfold keyData at h
  have h1 : joinArgs (u ++ x :: v) = joinArgs (u ++ y :: v) := strAppend_left_cancel h
  exact joinArgs_one_change u v hxy h1

/-! ## Idempotency-cache lemmas -/

theorem svcCheck_svcStore_same (c : Cache) (k : String) (d : RespDict) :
    svcCheck (svcStore c k d) k = some d :=
  getA_setA_same _ _ c

/-! ## Claims -/

/-- C1: For every `EnhancedEventDispatcher`, every event name, and every
set of handlers registered for that name, `dispatch` invokes the handlers
in strictly descending priority order, and handlers of equal priority are
invoked in their registration order (stable tie-breaking).  Formally: the
stored handler list is sorted by descending priority; restricted to any
single priority it equals the registration sequence for that priority
(stability); and the handlers the dispatch loop reaches are exactly an
initial prefix of that stored list, in order. -/
theorem dispatch_priority_order (L : List HandlerBeh) (ev : Event) :
    ((registerAll L).handlersFor ev.name).Pairwise (fun a b => b.1 ≤ a.1)
    ∧ (∀ p : Int,
        ((registerAll L).handlersFor ev.name).filter (fun y => decide (y.1 = p)) =
          (entriesFor ev.name L).filter (fun y => decide (y.1 = p)))
    ∧ (runLoop (((registerAll L).handlersFor ev.name).map Prod.snd)
          ev.propagation_stopped).map Prod.fst =
        (((registerAll L).handlersFor ev.name).map Prod.snd).take
          ((runLoop (((registerAll L).handlersFor ev.name).map Prod.snd)
            ev.propagation_stopped).length) := by
  refine ⟨?_, ?_, ?_⟩
  · rw [registerAll_handlersFor]
    exact sortDesc_pairwise _
  · intro p
    rw [registerAll_handlersFor, sortDesc_filter]
  · exact runLoop_map_fst _ _

/-- C2: For every dispatch call, once any handler has called
`stop_propagation` on the event, no subsequent handler in the priority
order is invoked during that dispatch — neither its `can_handle` nor its
`handle` runs.  Formally: with the flag already set the loop reaches no
handler at all, and a reached handler that leaves the flag set is the
last entry of the trace (every reached handler has exactly one trace
entry, so absence from the trace means neither method ran). -/
theorem dispatch_stop_propagation (hs : List HandlerBeh) :
    runLoop hs true = []
    ∧ ∀ (s : Bool) (j : Nat) (p : HandlerBeh × Step),
        (runLoop hs s).get? j = some p → effStops p.1 = true →
        (runLoop hs s).length = j + 1 :=
  ⟨runLoop_stopped hs, fun s j p hget hstop => runLoop_stop_halts hs s j p hget hstop⟩

/-- Witness for C2: a highest-priority handler that stops propagation is
the only reached handler, although a second one is registered. -/
theorem dispatch_stop_propagation_witness :
    (runLoop [⟨100, "evt", CallResult.ok true, false,
        CallResult.ok (EventResult.success_result Option.none), true⟩,
      ⟨50, "evt", CallResult.ok true, false,
        CallResult.ok (EventResult.success_result Option.none), false⟩] false).length = 0 + 1 :=
  (dispatch_stop_propagation [⟨100, "evt", CallResult.ok true, false,
        CallResult.ok (EventResult.success_result Option.none), true⟩,
      ⟨50, "evt", CallResult.ok true, false,
        CallResult.ok (EventResult.success_result Option.none), false⟩]).2 false 0
    (⟨100, "evt", CallResult.ok true, false,
        CallResult.ok (EventResult.success_result Option.none), true⟩,
      Step.ran (EventResult.success_result Option.none)) rfl rfl

/-- C8: If a handler's `handle` raises, an `EventResult` with
`success=False` and `error_type='handler_exception'` carrying the
exception's message is appended to the collected results, all remaining
handlers are still invoked (the loop continues exactly as before), and
`dispatch` — which is a total function of the loop's collected results —
never propagates the exception. -/
theorem dispatch_handle_exception (h : HandlerBeh) (rest : List HandlerBeh) (m : String)
    (hc : h.canHandleRes = CallResult.ok true)
    (he : h.handleRes = CallResult.exn m)
    (h1 : h.canHandleStops = false) (h2 : h.handleStops = false) :
    runLoop (h :: rest) false = (h, Step.ranExn m) :: runLoop rest false
    ∧ stepResults (runLoop (h :: rest) false) =
        EventResult.error_result m "handler_exception" :: stepResults (runLoop rest false) := by
  have hes : effStops h = false := by
    simp [effStops, hc, h1, h2]
  have hl : runLoop (h :: rest) false = (h, Step.ranExn m) :: runLoop rest (effStops h) := by
    rw [runLoop_cons_false, hc, he]
  rw [hes] at hl
  refine ⟨hl, ?_⟩
  rw [hl]
  rfl

/-- Witness for C8: one handler whose `handle` raises `"boom"`. -/
theorem dispatch_handle_exception_witness :
    runLoop [⟨100, "evt", CallResult.ok true, false, CallResult.exn "boom", false⟩] false =
      (⟨100, "evt", CallResult.ok true, false, CallResult.exn "boom", false⟩,
        Step.ranExn "boom") :: runLoop [] false
    ∧ stepResults (runLoop [⟨100, "evt", CallResult.ok true, false,
        CallResult.exn "boom", false⟩] false) =
        EventResult.error_result "boom" "handler_exception" :: stepResults (runLoop [] false) :=
  dispatch_handle_exception ⟨100, "evt", CallResult.ok true, false, CallResult.exn "boom", false⟩
    [] "boom" rfl rfl rfl rfl

/-- C10: An exception raised by a handler's `can_handle` check is also
caught and recorded as an `EventResult` with `success=False` and
`error_type='handler_exception'`, is included in the combined result
(which is then a failure), and the loop proceeds to the next handler —
the handler is counted as an attempt rather than silently skipped. -/
theorem dispatch_canhandle_exception (h : HandlerBeh) (rest : List HandlerBeh) (m : String)
    (hc : h.canHandleRes = CallResult.exn m)
    (h1 : h.canHandleStops = false) :
    runLoop (h :: rest) false = (h, Step.canExn m) :: runLoop rest false
    ∧ stepResults (runLoop (h :: rest) false) =
        EventResult.error_result m "handler_exception" :: stepResults (runLoop rest false)
    ∧ (EventResult.combine (stepResults (runLoop (h :: rest) false))).success = false := by
  have hes : effStops h = false := by
    simp [effStops, hc, h1]
  have hl : runLoop (h :: rest) false = (h, Step.canExn m) :: runLoop rest (effStops h) := by
    rw [runLoop_cons_false, hc]
  rw [hes] at hl
  have hsr : stepResults (runLoop (h :: rest) false) =
      EventResult.error_result m "handler_exception" :: stepResults (runLoop rest false) := by
    rw [hl]
    rfl
  refine ⟨hl, hsr, ?_⟩
  rw [hsr]
  exact (combine_exists_failed _ ⟨_, List.mem_cons_self _ _, rfl⟩).1

/-- Witness for C10: one handler whose `can_handle` raises `"bad"`,
followed by a second handler that is still reached. -/
theorem dispatch_canhandle_exception_witness :
    runLoop [⟨100, "evt", CallResult.exn "bad", false,
        CallResult.ok (EventResult.success_result Option.none), false⟩,
      ⟨50, "evt", CallResult.ok true, false,
        CallResult.ok (EventResult.success_result Option.none), false⟩] false =
      (⟨100, "evt", CallResult.exn "bad", false,
          CallResult.ok (EventResult.success_result Option.none), false⟩,
        Step.canExn "bad") ::
        runLoop [⟨50, "evt", CallResult.ok true, false,
          CallResult.ok (EventResult.success_result Option.none), false⟩] false
    ∧ stepResults (runLoop [⟨100, "evt", CallResult.exn "bad", false,
          CallResult.ok (EventResult.success_result Option.none), false⟩,
        ⟨50, "evt", CallResult.ok true, false,
          CallResult.ok (EventResult.success_result Option.none), false⟩] false) =
        EventResult.error_result "bad" "handler_exception" ::
          stepResults (runLoop [⟨50, "evt", CallResult.ok true, false,
            CallResult.ok (EventResult.success_result Option.none), false⟩] false)
    ∧ (EventResult.combine (stepResults (runLoop [⟨100, "evt", CallResult.exn "bad", false,
          CallResult.ok (EventResult.success_result Option.none), false⟩,
        ⟨50, "evt", CallResult.ok true, false,
          CallResult.ok (EventResult.success_result Option.none), false⟩] false))).success =
        false :=
  dispatch_canhandle_exception
    ⟨100, "evt", CallResult.exn "bad", false,
      CallResult.ok (EventResult.success_result Option.none), false⟩
    [⟨50, "evt", CallResult.ok true, false,
      CallResult.ok (EventResult.success_result Option.none), false⟩] "bad" rfl rfl

/-- C7: For every non-empty list of `EventResult`s, `combine` returns
`success=True` iff every element has `success=True`; on success its data
is the ordered list of the elements' non-`None` data values; on any
failure its data is discarded, its error is the semicolon-joined error
messages of the failed elements in iteration order, and its `error_type`
is the first failed element's `error_type`, defaulting to
`'handler_error'` when that element's `error_type` is unset (`None` or
empty, the Python-falsy values). -/
theorem combine_spec (results : List EventResult) (hne : results ≠ []) :
    ((EventResult.combine results).success = true ↔ ∀ r ∈ results, r.success = true)
    ∧ ((∀ r ∈ results, r.success = true) →
        EventResult.combine results =
          EventResult.success_result
            (some (PyVal.plist (results.filterMap (fun r => r.data)))))
    ∧ ((∃ r ∈ results, r.success = false) →
        (EventResult.combine results).success = false ∧
          (EventResult.combine results).data = Option.none)
    ∧ (∀ f fs, results.filter (fun r => r.success = false) = f :: fs →
        EventResult.combine results =
          EventResult.error_result
            (String.intercalate "; " ((f :: fs).filterMap EventResult.errMsg))
            (EventResult.firstFailedErrorType f)) :=
  ⟨combine_success_iff results hne, combine_all_success results hne,
    combine_exists_failed results, fun f fs hf => combine_failed results f fs hf⟩

/-- Witness for C7: combining a success with an `"boom"` failure yields a
failure with discarded data. -/
theorem combine_spec_witness :
    (EventResult.combine [EventResult.success_result (some (PyVal.pint 1)),
        EventResult.error_result "boom" "handler_error"]).success = false
    ∧ (EventResult.combine [EventResult.success_result (some (PyVal.pint 1)),
        EventResult.error_result "boom" "handler_error"]).data = Option.none :=
  (combine_spec [EventResult.success_result (some (PyVal.pint 1)),
      EventResult.error_result "boom" "handler_error"]
    (List.cons_ne_nil _ _)).2.2.1
    ⟨EventResult.error_result "boom" "handler_error",
      List.mem_cons_of_mem _ (List.mem_cons_self _ _), rfl⟩

/-- C3: For every `_with_retry` call with retry budget `retries`:
`operation` is invoked at most `retries + 1` times; the first invocation
that returns normally supplies the return value (with `k + 1` total
invocations when the first `k` raised transient errors); a non-transient
exception propagates immediately on its first occurrence with no further
invocations; if all `retries + 1` invocations raise a transient error,
the last transient error is re-raised after exactly `retries + 1`
attempts; and the backoff delays between transient-error attempts are
`0.1 * 2 ^ attempt` seconds — starting at 0.1s and doubling. -/
theorem with_retry_spec (op : Nat → Outcome) (retries : Nat) :
    (withRetry op retries).calls ≤ retries + 1
    ∧ (∀ k r, k ≤ retries → (∀ i, i < k → ∃ e, op i = Outcome.transient e) →
        op k = Outcome.ok r →
        withRetry op retries = ⟨Except.ok r, k + 1, (List.range k).map backoffDelay⟩)
    ∧ (∀ k e, k ≤ retries → (∀ i, i < k → ∃ e', op i = Outcome.transient e') →
        op k = Outcome.fatal e →
        withRetry op retries =
          ⟨Except.error (RetryErr.nonTransient e), k + 1, (List.range k).map backoffDelay⟩)
    ∧ (∀ e, (∀ i, i ≤ retries → ∃ e', op i = Outcome.transient e') →
        op retries = Outcome.transient e →
        withRetry op retries =
          ⟨Except.error (RetryErr.transientExhausted e), retries + 1,
            (List.range retries).map backoffDelay⟩) := by
  refine ⟨withRetryGo_calls_le op retries _ _ _, ?_, ?_, ?_⟩
  · intro k r hk htr hok
    have h := withRetryGo_ok op retries r k (retries + 1) 0 Option.none (by omega) (by omega)
      (fun i hi => by simpa using htr i hi) (by simpa using hok)
    rw [withRetry, h, List.range_eq_range']
  · intro k e hk htr hft
    have h := withRetryGo_fatal op retries e k (retries + 1) 0 Option.none (by omega) (by omega)
      (fun i hi => by simpa using htr i hi) (by simpa using hft)
    rw [withRetry, h, List.range_eq_range']
  · intro e hall hlast
    have h := withRetryGo_exhaust op retries e retries 0 Option.none (by omega)
      (fun i hi => by simpa using hall i hi) hlast
    rw [withRetry, h, List.range_eq_range']

/-- Witness for C3: an always-transient operation under a budget of 2
retries raises the transient error after exactly 3 attempts, with sleeps
of 0.1s and 0.2s between attempts. -/
theorem with_retry_spec_witness :
    withRetry (fun _ => Outcome.transient "boom") 2 =
      ⟨Except.error (RetryErr.transientExhausted "boom"), 3,
        [(1 : ℚ) / 10, (2 : ℚ) / 10]⟩ := by
  have h := (with_retry_spec (fun _ => Outcome.transient "boom") 2).2.2.2 "boom"
    (fun i _ => ⟨"boom", rfl⟩) rfl
  rw [h]
  norm_num [backoffDelay, List.range_succ]

/-- C4: For every `_with_idempotency` call with a non-empty key and a
configured idempotency service: a cache hit returns the cached payload
reconstructed as an `SDKResponse` without invoking the operation; on a
miss the operation runs exactly once, and its response is stored under
the key iff the response is successful (failed responses are never
cached).  With an absent/empty key or no service, the operation runs once
and its result is returned with the cache untouched. -/
theorem with_idempotency_spec (c : Cache) (key : Option String) (op : SDKResponse) :
    (∀ k, key = some k → k ≠ "" →
      ((∀ d, svcCheck c k = some d →
          withIdempotency true c key op = ⟨respFromDict d, c, 0⟩)
       ∧ (svcCheck c k = Option.none →
          withIdempotency true c key op =
            ⟨op, if op.success then svcStore c k op.to_dict else c, 1⟩
          ∧ svcCheck (withIdempotency true c key op).cache k =
              (if op.success then some op.to_dict else Option.none))))
    ∧ (pyTruthyKey key = false → withIdempotency true c key op = ⟨op, c, 1⟩)
    ∧ withIdempotency false c key op = ⟨op, c, 1⟩ := by
  refine ⟨?_, ?_, ?_⟩
  · rintro k rfl hne
    have htruthy : pyTruthyKey (some k) = true := by
      have hemp : k.isEmpty = false := by
        rw [Bool.eq_false_iff]
        intro hemp
        exact hne ((String.isEmpty_iff k).mp hemp)
      simp [pyTruthyKey, hemp]
    constructor
    · intro d hd
      simp [withIdempotency, htruthy, hd]
    · intro hd
      cases hsu : op.success
      · constructor
        · simp [withIdempotency, htruthy, hd, hsu]
        · simp [withIdempotency, htruthy, hd, hsu]
      · constructor
        · simp [withIdempotency, htruthy, hd, hsu]
        · simp [withIdempotency, htruthy, hd, hsu, svcCheck_svcStore_same]
  · intro hf
    simp [withIdempotency, hf]
  · simp [withIdempotency]

/-- Witness for C4: a successful response under key `"k1"` on an empty
cache runs once and is stored; the stored payload is then found. -/
theorem with_idempotency_spec_witness :
    withIdempotency true [] (some "k1") ⟨true, [], Option.none, Option.none⟩ =
      ⟨⟨true, [], Option.none, Option.none⟩,
        if (⟨true, [], Option.none, Option.none⟩ : SDKResponse).success
        then svcStore [] "k1" (SDKResponse.to_dict ⟨true, [], Option.none, Option.none⟩)
        else [], 1⟩
    ∧ svcCheck (withIdempotency true [] (some "k1")
        ⟨true, [], Option.none, Option.none⟩).cache "k1" =
      (if (⟨true, [], Option.none, Option.none⟩ : SDKResponse).success
       then some (SDKResponse.to_dict ⟨true, [], Option.none, Option.none⟩)
       else Option.none) :=
  ((with_idempotency_spec [] (some "k1") ⟨true, [], Option.none, Option.none⟩).1 "k1" rfl
    (by decide)).2 rfl

/-- C9: `generate_key` is deterministic — identical arguments yield
identical keys — and, with the truncated SHA-256 digest modelled as an
injective (collision-free, per the spec's collision-resistance
assumption) hash `h`, any difference in any one argument — the provider,
the operation, or any single positional argument — yields a different
key, because the colon-joined data string fed to the hash then differs. -/
theorem generate_key_spec (h : String → String) (hinj : Function.Injective h) :
    (∀ p o a, generate_key h p o a = generate_key h p o a)
    ∧ (∀ p p' o a, p ≠ p' → generate_key h p o a ≠ generate_key h p' o a)
    ∧ (∀ p o o' a, o ≠ o' → generate_key h p o a ≠ generate_key h p o' a)
    ∧ (∀ p o x y u v, x ≠ y →
        generate_key h p o (u ++ x :: v) ≠ generate_key h p o (u ++ y :: v)) := by
  refine ⟨fun p o a => rfl, ?_, ?_, ?_⟩
  · intro p p' o a hne heq
    exact hne (keyData_inj_provider (hinj heq))
  · intro p o o' a hne heq
    exact hne (keyData_inj_operation (hinj heq))
  · intro p o x y u v hne heq
    exact keyData_inj_arg hne (hinj heq)

/-- Witness for C9: with the identity as (injective) hash, changing the
provider changes the key. -/
theorem generate_key_spec_witness :
    generate_key (fun s => s) "stripe" "create_payment" ["10", "USD"] ≠
      generate_key (fun s => s) "paypal" "create_payment" ["10", "USD"] :=
  (generate_key_spec (fun s => s) (fun a b hab => hab)).2.1
    "stripe" "paypal" "create_payment" ["10", "USD"] (by decide)

/-- Counterexample for C5 as stated: `process` does not return a
`WebhookResult` for every payload.  Concrete input: registered provider
`"stripe"` whose handler accepts the signature, payload bytes `[0x80]`
(a single byte that is not valid UTF-8), on which `json.loads` raises
`UnicodeDecodeError` — not a `json.JSONDecodeError` — so the
`except json.JSONDecodeError` clause does not catch it and `process`
raises to its caller instead of returning a failure result. -/
theorem process_nonutf8_raises :
    @processT Unit
      ⟨[("stripe", ⟨"stripe", fun _ _ _ => true, fun _ => CallResult.ok (),
          fun _ => CallResult.ok ⟨true, Option.none, Option.none, []⟩⟩)],
        [("stripe", "whsec")]⟩
      (fun _ => JsonOutcome.otherExn
        "UnicodeDecodeError: invalid start byte") "stripe" [128] "sig" [] =
      (CallResult.exn "UnicodeDecodeError: invalid start byte", [WCall.jsonParse]) := rfl

/-- C5 (amended): For every `WebhookService.process` call, execution
falls into exactly one of seven total cases: unknown provider, signature
failure, a `JSONDecodeError` from `json.loads`, and an exception raised
by the handler's `parse_event` or `handle` are each converted into a
failure `WebhookResult`; the handler's own result is returned otherwise;
and the only way `process` raises to its caller is `json.loads` raising
an exception other than `JSONDecodeError` (e.g. `UnicodeDecodeError` on
non-UTF-8 payload bytes), which its `except json.JSONDecodeError` clause
does not catch. -/
theorem process_outcome_cases (Ev : Type) (svc : WebhookService Ev)
    (jsonLoads : List Nat → JsonOutcome) (provider : String)
    (payload : List Nat) (signature : String) (headers : List (String × String)) :
    (getA provider svc.handlers = Option.none ∧
      processT svc jsonLoads provider payload signature headers =
        (CallResult.ok ⟨false, Option.none, some ("Unknown provider: " ++ provider), []⟩, []))
    ∨ (∃ hd, getA provider svc.handlers = some hd ∧
        ((hd.verify_signature payload signature ((getA provider svc.secrets).getD "") = false ∧
          processT svc jsonLoads provider payload signature headers =
            (CallResult.ok ⟨false, Option.none, some "Invalid signature", []⟩, []))
         ∨ (hd.verify_signature payload signature ((getA provider svc.secrets).getD "") = true ∧
            ((∃ e, jsonLoads payload = JsonOutcome.otherExn e ∧
               processT svc jsonLoads provider payload signature headers =
                 (CallResult.exn e, [WCall.jsonParse]))
             ∨ (∃ e, jsonLoads payload = JsonOutcome.decodeErr e ∧
               processT svc jsonLoads provider payload signature headers =
                 (CallResult.ok ⟨false, Option.none, some ("Failed to parse JSON: " ++ e), []⟩,
                   [WCall.jsonParse]))
             ∨ (∃ d, jsonLoads payload = JsonOutcome.ok d ∧
                 ((∃ e, hd.parse_event d = CallResult.exn e ∧
                    processT svc jsonLoads provider payload signature headers =
                      (CallResult.ok
                        ⟨false, Option.none, some ("Failed to parse event: " ++ e), []⟩,
                        [WCall.jsonParse, WCall.parseEventCall]))
                  ∨ (∃ ev, hd.parse_event d = CallResult.ok ev ∧
                      ((∃ e, hd.handle ev = CallResult.exn e ∧
                         processT svc jsonLoads provider payload signature headers =
                           (CallResult.ok
                             ⟨false, Option.none, some ("Handler error: " ++ e), []⟩,
                             [WCall.jsonParse, WCall.parseEventCall, WCall.handleCall]))
                       ∨ (∃ res, hd.handle ev = CallResult.ok res ∧
                           processT svc jsonLoads provider payload signature headers =
                             (CallResult.ok res, [WCall.jsonParse, WCall.parseEventCall,
                               WCall.handleCall])))))))))) := by
  rcases hg : getA provider svc.handlers with _ | hd
  · exact Or.inl ⟨rfl, by simp [processT, hg]⟩
  · refine Or.inr ⟨hd, rfl, ?_⟩
    cases hv : hd.verify_signature payload signature ((getA provider svc.secrets).getD "")
    · exact Or.inl ⟨rfl, by simp [processT, hg, hv]⟩
    · refine Or.inr ⟨rfl, ?_⟩
      rcases hj : jsonLoads payload with d | e | e
      · refine Or.inr (Or.inr ⟨d, rfl, ?_⟩)
        rcases hp : hd.parse_event d with ev | e
        · refine Or.inr ⟨ev, rfl, ?_⟩
          rcases hh : hd.handle ev with res | e
          · exact Or.inr ⟨res, rfl, by simp [processT, hg, hv, hj, hp, hh]⟩
          · exact Or.inl ⟨e, rfl, by simp [processT, hg, hv, hj, hp, hh]⟩
        · exact Or.inl ⟨e, rfl, by simp [processT, hg, hv, hj, hp]⟩
      · exact Or.inr (Or.inl ⟨e, rfl, by simp [processT, hg, hv, hj]⟩)
      · exact Or.inl ⟨e, rfl, by simp [processT, hg, hv, hj]⟩

/-- C6: If the handler's `verify_signature` returns `False` for the raw
payload bytes, `process` returns `success=False` with error
`"Invalid signature"`, and its collaborator-call trace is empty: neither
JSON parsing of the body nor the handler's `parse_event` nor its `handle`
is invoked during that call. -/
theorem process_signature_gate (Ev : Type) (svc : WebhookService Ev)
    (jsonLoads : List Nat → JsonOutcome) (provider : String)
    (payload : List Nat) (signature : String) (headers : List (String × String))
    (hd : IWebhookHandlerBeh Ev)
    (hh : getA provider svc.handlers = some hd)
    (hv : hd.verify_signature payload signature ((getA provider svc.secrets).getD "") = false) :
    processT svc jsonLoads provider payload signature headers =
      (CallResult.ok ⟨false, Option.none, some "Invalid signature", []⟩,
        ([] : List WCall)) := by
  simp [processT, hh, hv]

/-- Witness for C6: a handler rejecting every signature yields the
invalid-signature failure with an empty call trace. -/
theorem process_signature_gate_witness :
    @processT Unit
      ⟨[("stripe", ⟨"stripe", fun _ _ _ => false, fun _ => CallResult.ok (),
          fun _ => CallResult.ok ⟨true, Option.none, Option.none, []⟩⟩)],
        [("stripe", "whsec")]⟩
      (fun _ => JsonOutcome.ok PyVal.pnone) "stripe" [1, 2, 3] "sig" [] =
      (CallResult.ok ⟨false, Option.none, some "Invalid signature", []⟩,
        ([] : List WCall)) :=
  process_signature_gate Unit
    ⟨[("stripe", ⟨"stripe", fun _ _ _ => false, fun _ => CallResult.ok (),
        fun _ => CallResult.ok ⟨true, Option.none, Option.none, []⟩⟩)],
      [("stripe", "whsec")]⟩
    (fun _ => JsonOutcome.ok PyVal.pnone) "stripe" [1, 2, 3] "sig" []
    ⟨"stripe", fun _ _ _ => false, fun _ => CallResult.ok (),
      fun _ => CallResult.ok ⟨true, Option.none, Option.none, []⟩⟩ rfl rfl
